import Mathlib

/-!
# kube-profefe: the `kprofefe` collection command

A shallow embedding of `pkg/cmd/kprofefe.go`: the selection of pods, the
worker pool of `NewKProfefeCmd` and the per-target routine `do`.

Conventions of the embedding

* A Go `map[string]string` is an association list read with `mapGet`
  (the two-valued index expression `v, ok := m[k]`) and written with
  `mapSet` (the assignment `m[k] = v`).
* A Go `error` is the string it renders to.
* Calls that leave the process (the Kubernetes API, the profiling endpoint,
  the profefe store) are answered by the functions of `Deps` and `Kube`;
  every such call is recorded as an `Event`, together with the log lines.
* `profefe.ProfileType` and `*profile.Profile` come from packages outside
  this file of the repository; they are the type parameters `PT` and
  `Payload`.
-/

namespace KProfefe

/-- Go `map[string]string`. -/
abbrev StrMap := List (String × String)

/-- The index expression `v, ok := m[k]`: `some v` when `ok`, else `none`. -/
def mapGet (m : StrMap) (k : String) : Option String :=
  match m with
  | [] => none
  | (k', v) :: rest => if k' = k then some v else mapGet rest k

/-- The assignment `m[k] = v`. -/
def mapSet (m : StrMap) (k v : String) : StrMap :=
  match m with
  | [] => [(k, v)]
  | (k', v') :: rest => if k' = k then (k, v) :: rest else (k', v') :: mapSet rest k v

/-- The fields of `corev1.Pod` that the command reads. -/
structure Pod where
  Name : String
  Namespace : String
  Annotations : StrMap
  PodIP : String
  HostIP : String
deriving DecidableEq, Repr

/-- The values of `context.Context` that the command builds. -/
inductive Context where
  | Background
  | WithTimeout (parent : Context) (seconds : Nat)
deriving DecidableEq, Repr

/-- Whether `c` is `d` or was derived from `d` by `context.WithTimeout`. -/
def Context.derivedFrom (c d : Context) : Bool :=
  if c = d then true
  else match c with
    | Context.Background => false
    | Context.WithTimeout parent _ => parent.derivedFrom d

/-- The struct `profefe.SavePprofRequest` as the command fills it; `Typ` is its
field `Type`. -/
structure SavePprofRequest (PT Payload : Type) where
  Profile : Payload
  Service : String
  InstanceID : String
  Typ : PT
  Labels : StrMap
deriving DecidableEq

/-- Levels of the zap logger. -/
inductive Level where
  | Info
  | Warn
  | Error
  | Fatal
deriving DecidableEq, Repr

/-- What the command does that is visible from outside: log lines and calls. -/
inductive Event (PT Payload : Type) where
  | log (level : Level) (msg : String) (fields : List (String × String))
  | gatherAllByPod (ctx : Context) (url : String) (target : Pod) (port : Int)
  | savePprof (ctx : Context) (req : SavePprofRequest PT Payload)
  | getPodByName (ns : String) (podName : String)
  | getSelectedPods (ns : String) (labelSelector : String)
deriving DecidableEq

/-- The collaborators of `do` that live in other packages. `SavePprof` is
answered per call: its first argument counts the earlier `SavePprof` calls of
the same `do` invocation. -/
structure Deps (PT Payload : Type) where
  UnknownProfile : PT
  NewProfileTypeFromString : String → PT
  ProfileTypeString : PT → String
  GetProfefePortByPod : Pod → Int
  GatherAllByPod : Context → String → Pod → Int → Except String (List (String × Payload))
  SavePprof : Nat → Context → SavePprofRequest PT Payload → Except String String
  ProfefeHostPort : String

section Do

variable {PT Payload : Type} [DecidableEq PT]

/-- Lines 162-175 of `do`: the request literal, then the annotation override. -/
def buildRequest (target : Pod) (profefeType : PT) (profile : Payload) :
    SavePprofRequest PT Payload :=
  let req : SavePprofRequest PT Payload :=
    { Profile := profile
      Service := target.Name
      InstanceID := target.HostIP
      Typ := profefeType
      Labels := [("namespace", target.Namespace), ("from", "kube-profefe")] }
  match mapGet target.Annotations "profefe.com/service" with
  | some serviceName =>
    if serviceName ≠ "" then
      { req with Service := serviceName, Labels := mapSet req.Labels "pod" target.Name }
    else req
  | none => req

/-- Lines 156-182 of `do`: the loop over the fetched profiles, in the order in
which the `range` over the map visits them. `n` counts the `SavePprof` calls
made so far. -/
def doLoop (D : Deps PT Payload) (logger : List (String × String)) (target : Pod) :
    Nat → List (String × Payload) → List (Event PT Payload)
  | _, [] => []
  | n, (profileType, profile) :: rest =>
    let profefeType := D.NewProfileTypeFromString profileType
    if profefeType = D.UnknownProfile then
      Event.log Level.Warn
          "Unknown profile type it can not be sent to profefe. Skip this profile"
          (logger ++ [("profile_type", profileType)])
        :: doLoop D logger target n rest
    else
      let req := buildRequest target profefeType profile
      let outcome : Event PT Payload :=
        match D.SavePprof n Context.Background req with
        | Except.error err =>
          Event.log Level.Warn
            "Unknown profile type it can not be sent to profefe. Skip this profile"
            (logger ++ [("error", err)])
        | Except.ok id =>
          Event.log Level.Info "Profile stored in profefe."
            (logger ++ [("id", id), ("profefe_profile_type", D.ProfileTypeString profefeType),
              ("url", D.ProfefeHostPort ++ "/api/0/profiles/" ++ id)])
      Event.savePprof Context.Background req :: outcome
        :: doLoop D logger target (n + 1) rest

/-- The function `do` (the name is a keyword of Lean, hence the underscore). -/
def do_ (D : Deps PT Payload) (ctx : Context) (l : List (String × String)) (target : Pod) :
    List (Event PT Payload) :=
  let logger := l ++ [("pod", target.Name)]
  let targetPort := D.GetProfefePortByPod target
  let url := "http://" ++ target.PodIP
  match D.GatherAllByPod ctx url target targetPort with
  | Except.error err =>
    [Event.gatherAllByPod ctx url target targetPort,
     Event.log Level.Error "impossible to gather profiles" (logger ++ [("error", err)])]
  | Except.ok profiles =>
    Event.gatherAllByPod ctx url target targetPort :: doLoop D logger target 0 profiles

/-- Whether the event is a call of the profiling endpoint or of the store. -/
def Event.isFetchOrSubmit : Event PT Payload → Bool
  | Event.gatherAllByPod _ _ _ _ => true
  | Event.savePprof _ _ => true
  | _ => false

/-- Whether the event is the label-selector query. -/
def Event.isSelectorQuery : Event PT Payload → Bool
  | Event.getSelectedPods _ _ => true
  | _ => false

/-- Whether the event is a line logged with `logger.Fatal`. -/
def Event.isFatal : Event PT Payload → Bool
  | Event.log Level.Fatal _ _ => true
  | _ => false

/-- The requests handed to `SavePprof`, in call order. -/
def savedRequests : List (Event PT Payload) → List (SavePprofRequest PT Payload)
  | [] => []
  | Event.savePprof _ req :: rest => req :: savedRequests rest
  | _ :: rest => savedRequests rest

/-- The contexts handed to `SavePprof`, in call order. -/
def savedContexts : List (Event PT Payload) → List Context
  | [] => []
  | Event.savePprof ctx _ :: rest => ctx :: savedContexts rest
  | _ :: rest => savedContexts rest

end Do

/-- The lookups of `kubeutil`. `GetPodByName` is answered per call: its first
argument counts the earlier lookups of the run. -/
structure Kube where
  GetPodByName : Nat → String → String → Except String Pod
  GetSelectedPods : String → String → Except String (List Pod)

section Run

variable {PT Payload : Type} [DecidableEq PT]

/-- Lines 78-85 of `Run`: the loop over the pod names given as arguments.
`i` counts the lookups made so far, `selectedPods` and `trace` are what the
earlier iterations have built. -/
def selectByName (K : Kube) (logger : List (String × String)) (ns : String) :
    Nat → List String → List Pod → List (Event PT Payload) →
      List Pod × List (Event PT Payload)
  | _, [], selectedPods, trace => (selectedPods, trace)
  | i, podName :: rest, selectedPods, trace =>
    match K.GetPodByName i ns podName with
    | Except.error err =>
      selectByName K logger ns (i + 1) rest selectedPods
        (trace ++ [Event.getPodByName ns podName,
          Event.log Level.Warn "Pod not found" (logger ++ [("error", err)])])
    | Except.ok pod =>
      selectByName K logger ns (i + 1) rest (selectedPods ++ [pod])
        (trace ++ [Event.getPodByName ns podName])

/-- Lines 75-93 of `Run`: `Except.error` is the trace of a run that
`logger.Fatal` has ended, `Except.ok` the selected pods and the trace so far. -/
def selectPods (K : Kube) (logger : List (String × String)) (ns : String)
    (args : List String) (labelSelector : String) :
    Except (List (Event PT Payload)) (List Pod × List (Event PT Payload)) :=
  if args.length > 0 then
    Except.ok (selectByName K logger ns 0 args [] [])
  else
    match K.GetSelectedPods ns labelSelector with
    | Except.error err =>
      Except.error [Event.getSelectedPods ns labelSelector,
        Event.log Level.Fatal "Error retrieving list of pods from kubernetes api"
          (logger ++ [("error", err)])]
    | Except.ok pods => Except.ok (pods, [Event.getSelectedPods ns labelSelector])

/-- Where a worker goroutine (lines 111-123) stands.

* `receiving`: blocked in the receive of line 113;
* `working k ctx pod`: inside the call of `do` of line 121, the `k`-th call of
  the run;
* `closing`: it has received `more == false` and logged line 115, and has not
  yet called `wg.Done()`;
* `leaving`: it has called `wg.Done()` (line 116) and has not yet returned:
  the `return` of line 117 and the deferred `cancel()` calls of line 120 are
  still to come;
* `exited`: the goroutine has returned. -/
inductive Worker where
  | receiving
  | working (call : Nat) (ctx : Context) (pod : Pod)
  | closing
  | leaving
  | exited
deriving DecidableEq, Repr

/-- One invocation of `do` by a worker (line 121). -/
structure DoCall where
  worker : Nat
  ctx : Context
  target : Pod
deriving DecidableEq, Repr

/-- One return of `do`: which call of the run returned, in which worker, on
which target, and the events of that invocation. -/
structure DoReturn (PT Payload : Type) where
  call : Nat
  worker : Nat
  target : Pod
  events : List (Event PT Payload)

/-- The state of lines 106-132: the producer loop (`pending` are the targets
it has still to send), the channel `poolC`, the ten goroutines, the counter of
the `WaitGroup`, the calls and returns of `do` so far, the calls whose deferred
`cancel()` has run, the lines logged by the pool, and whether the last line of
`Run` is logged. -/
structure Pool (PT Payload : Type) where
  pending : List Pod
  closed : Bool
  workers : List Worker
  wg : Nat
  calls : List DoCall
  returns : List (DoReturn PT Payload)
  cancelled : List Nat
  log : List (Event PT Payload)
  done : Bool

/-- What the Go scheduler may let happen next.

* `handoff i`: the producer loop sends its next target on the unbuffered
  channel and worker `i`, blocked in the receive, takes it, derives the
  40 second context and calls `do`;
* `doReturn i`: the `do` call of worker `i` returns;
* `close`: the producer loop is over and `close(poolC)` runs;
* `observeClosed i`: worker `i` receives `more == false` and logs line 115;
* `wgDone i`: worker `i` calls `wg.Done()` (line 116);
* `workerReturn i`: worker `i` returns (line 117) and its deferred `cancel()`
  calls run, the last deferred first;
* `waitReturns`: `wg.Wait()` returns and the last line is logged. -/
inductive Action where
  | handoff (i : Nat)
  | doReturn (i : Nat)
  | close
  | observeClosed (i : Nat)
  | wgDone (i : Nat)
  | workerReturn (i : Nat)
  | waitReturns
deriving DecidableEq, Repr

/-- The `cancel()` calls that worker `i` has deferred (line 120), one for each
call of `do` it made, named by the number of the call, the last deferred
first. -/
def deferredCancels (i : Nat) (calls : List DoCall) : List Nat :=
  ((List.range calls.length).filter
    (fun k => decide ((calls[k]?).map DoCall.worker = some i))).reverse

/-- Lines 106-124: `wg.Add(10)`, the channel, ten goroutines at their receive. -/
def Pool.init (selectedPods : List Pod) : Pool PT Payload :=
  { pending := selectedPods
    closed := false
    workers := List.replicate 10 Worker.receiving
    wg := 10
    calls := []
    returns := []
    cancelled := []
    log := []
    done := false }

/-- One step of the pool; `none` when the action is not enabled. `D k` answers
the outside calls of the `k`-th invocation of `do`. -/
def Pool.step (D : Nat → Deps PT Payload) (logger : List (String × String))
    (p : Pool PT Payload) : Action → Option (Pool PT Payload)
  | Action.handoff i =>
    match p.pending, p.workers[i]? with
    | pod :: rest, some Worker.receiving =>
      if p.closed then none
      else
        let ctx := Context.WithTimeout Context.Background 40
        some { p with
          pending := rest
          workers := p.workers.set i (Worker.working p.calls.length ctx pod)
          calls := p.calls ++ [{ worker := i, ctx := ctx, target := pod }] }
    | _, _ => none
  | Action.doReturn i =>
    match p.workers[i]? with
    | some (Worker.working k ctx pod) =>
      some { p with
        workers := p.workers.set i Worker.receiving
        returns := p.returns ++
          [{ call := k, worker := i, target := pod, events := do_ (D k) ctx logger pod }] }
    | _ => none
  | Action.close =>
    match p.pending with
    | [] => if p.closed then none else some { p with closed := true }
    | _ :: _ => none
  | Action.observeClosed i =>
    match p.workers[i]? with
    | some Worker.receiving =>
      if p.closed then
        some { p with
          workers := p.workers.set i Worker.closing
          log := p.log ++
            [Event.log Level.Info "there are not pods to process. Closing goroutine..."
              logger] }
      else none
    | _ => none
  | Action.wgDone i =>
    match p.workers[i]? with
    | some Worker.closing =>
      some { p with
        workers := p.workers.set i Worker.leaving
        wg := p.wg - 1 }
    | _ => none
  | Action.workerReturn i =>
    match p.workers[i]? with
    | some Worker.leaving =>
      some { p with
        workers := p.workers.set i Worker.exited
        cancelled := p.cancelled ++ deferredCancels i p.calls }
    | _ => none
  | Action.waitReturns =>
    if p.closed && p.wg == 0 && !p.done then
      some { p with
        done := true
        log := p.log ++ [Event.log Level.Info "It is all done bye..." logger] }
    else none

/-- The pool after a schedule; `none` when the schedule asks for a step that is
not enabled. -/
def Pool.run (D : Nat → Deps PT Payload) (logger : List (String × String)) :
    Pool PT Payload → List Action → Option (Pool PT Payload)
  | p, [] => some p
  | p, a :: rest =>
    match p.step D logger a with
    | some q => Pool.run D logger q rest
    | none => none

/-- How far `Run` has come from line 66 on: ended by `logger.Fatal`, or in the
worker pool. -/
inductive Stage (PT Payload : Type) where
  | exited (trace : List (Event PT Payload))
  | pool (trace : List (Event PT Payload)) (p : Pool PT Payload)

/-- Lines 66-124 of `Run`: selection, the check for an empty selection, and
the start of the pool. `logger` is the logger of line 71. -/
def start (K : Kube) (logger : List (String × String)) (ns : String)
    (args : List String) (labelSelector : String) : Stage PT Payload :=
  match selectPods K logger ns args labelSelector with
  | Except.error trace => Stage.exited trace
  | Except.ok (selectedPods, trace) =>
    if selectedPods.length = 0 then
      Stage.exited (trace ++ [Event.log Level.Fatal "No pods to profile" logger])
    else
      Stage.pool
        (trace ++ [Event.log Level.Info "Starting to profile..."
          (logger ++ [("selected_pods_count", toString selectedPods.length)])])
        (Pool.init selectedPods)

/-- The steps of `Run` after `start`: none once the process has exited. -/
def Stage.step (D : Nat → Deps PT Payload) (logger : List (String × String)) :
    Stage PT Payload → Action → Option (Stage PT Payload)
  | Stage.exited _, _ => none
  | Stage.pool trace p, a =>
    match p.step D logger a with
    | some q => some (Stage.pool trace q)
    | none => none

end Run

/-! ## Notions used to state the properties -/

/-- The context a worker derives for one target (line 119). -/
def workerCtx : Context := Context.WithTimeout Context.Background 40

section Notions

variable {PT Payload : Type}

/-- The fetched profiles whose kind does not classify to `UnknownProfile`. -/
def submittable [DecidableEq PT] (D : Deps PT Payload) (profiles : List (String × Payload)) :
    List (String × Payload) :=
  profiles.filter (fun kp => decide (D.NewProfileTypeFromString kp.1 ≠ D.UnknownProfile))

/-- The pod that the `i`-th lookup yields for `podName`, when it succeeds. -/
def lookupPod (K : Kube) (ns : String) (arg : Nat × String) : Option Pod :=
  match K.GetPodByName arg.1 ns arg.2 with
  | Except.ok pod => some pod
  | Except.error _ => none

/-- The events of the `i`-th lookup: the call, and a warning when it fails. -/
def lookupTrace (K : Kube) (logger : List (String × String)) (ns : String)
    (arg : Nat × String) : List (Event PT Payload) :=
  match K.GetPodByName arg.1 ns arg.2 with
  | Except.ok _ => [Event.getPodByName ns arg.2]
  | Except.error err =>
    [Event.getPodByName ns arg.2,
      Event.log Level.Warn "Pod not found" (logger ++ [("error", err)])]

/-- The target on which the worker is inside `do`, if it is. -/
def Worker.targetOf : Worker → Option Pod
  | Worker.working _ _ pod => some pod
  | _ => none

/-- The number of the call of `do` the worker is inside, if it is. -/
def Worker.callOf : Worker → Option Nat
  | Worker.working k _ _ => some k
  | _ => none

/-- One for a worker that has not called `wg.Done()`, zero after the call. -/
def Worker.notDone : Worker → Nat
  | Worker.receiving => 1
  | Worker.working _ _ _ => 1
  | Worker.closing => 1
  | Worker.leaving => 0
  | Worker.exited => 0

/-- The steps a worker has still to take when it is handed no further target:
the return of its `do` call, seeing the close, `wg.Done()`, its return. -/
def Worker.stepsLeft : Worker → Nat
  | Worker.receiving => 3
  | Worker.working _ _ _ => 4
  | Worker.closing => 2
  | Worker.leaving => 1
  | Worker.exited => 0

/-- The targets on which some worker is inside `do`. -/
def inflight (ws : List Worker) : List Pod := ws.filterMap Worker.targetOf

/-- The calls of `do` that have not returned. -/
def inflightCalls (ws : List Worker) : List Nat := ws.filterMap Worker.callOf

/-- The number of workers that have not called `wg.Done()`. -/
def active (ws : List Worker) : Nat := (ws.map Worker.notDone).sum

/-- The number of steps the pool has still to take: two for each pending
target (handoff, return of `do`), the steps left to each worker, one for the
close and one for the last line. -/
def Pool.stepsLeft (p : Pool PT Payload) : Nat :=
  2 * p.pending.length + (p.workers.map Worker.stepsLeft).sum +
    (if p.closed then 0 else 1) + (if p.done then 0 else 1)

/-- What every reachable state of the pool satisfies, for the selected pods
`pods`.

* `conserve`: each pod is pending, in flight or returned;
* `called`: `do` was called exactly on the pods in flight or returned;
* `callIdx`: each call of `do` is in flight or has returned, and not both;
* `workingOf`: a worker inside `do` is inside the call recorded for it;
* `returnsOf`: each return is the return of a recorded call, and its events
  are those of `do` on the target of that call;
* `counter`: the `WaitGroup` counts the workers that have not called
  `wg.Done()`;
* `closedEmpty`: the channel is closed only after the last send;
* `closedSeen`: a worker leaves its loop only after the close;
* `doneJoined`, `logged`: the last line is logged only after the close, with
  the counter at zero;
* `deadline`: every call of `do` got the 40 second context;
* `cancelledOf`: a deferred `cancel()` has run only for a call whose worker
  has returned. -/
structure PoolInv [DecidableEq PT] (D : Nat → Deps PT Payload)
    (logger : List (String × String)) (pods : List Pod) (p : Pool PT Payload) : Prop where
  conserve : ((p.returns.map DoReturn.target : List Pod) : Multiset Pod) +
      ((inflight p.workers : List Pod) : Multiset Pod) + ((p.pending : List Pod) : Multiset Pod) =
    ((pods : List Pod) : Multiset Pod)
  called : ((p.calls.map DoCall.target : List Pod) : Multiset Pod) =
    ((p.returns.map DoReturn.target : List Pod) : Multiset Pod) +
      ((inflight p.workers : List Pod) : Multiset Pod)
  callIdx : ((p.returns.map DoReturn.call : List Nat) : Multiset Nat) +
      ((inflightCalls p.workers : List Nat) : Multiset Nat) =
    ((List.range p.calls.length : List Nat) : Multiset Nat)
  workingOf : ∀ (i k : Nat) (ctx : Context) (pod : Pod),
    p.workers[i]? = some (Worker.working k ctx pod) →
    p.calls[k]? = some { worker := i, ctx := ctx, target := pod }
  returnsOf : ∀ r ∈ p.returns, ∃ c, p.calls[r.call]? = some c ∧ c.worker = r.worker ∧
    c.target = r.target ∧ r.events = do_ (D r.call) c.ctx logger c.target
  counter : p.wg = active p.workers
  closedEmpty : p.closed = true → p.pending = []
  closedSeen : ∀ w ∈ p.workers,
    w = Worker.closing ∨ w = Worker.leaving ∨ w = Worker.exited → p.closed = true
  doneJoined : p.done = true → p.closed = true ∧ p.wg = 0
  size : p.workers.length = 10
  deadline : ∀ c ∈ p.calls, c.ctx = workerCtx
  logged : ∀ fields, Event.log Level.Info "It is all done bye..." fields ∈ p.log →
    p.done = true
  cancelledOf : ∀ k ∈ p.cancelled, ∃ c, p.calls[k]? = some c ∧
    p.workers[c.worker]? = some Worker.exited

end Notions

/-! ## Sample inputs -/

/-- A sample classification: two known kinds, everything else unknown. -/
def sampleClassify (kind : String) : String :=
  if kind = "heap" then "heap" else if kind = "profile" then "cpu" else "unknown"

/-- Sample collaborators: two kinds are known, fetches return `profiles`, the
store accepts the first call of an invocation and rejects the later ones. -/
def sampleDeps (profiles : Except String (List (String × Nat))) : Deps String Nat :=
  { UnknownProfile := "unknown"
    NewProfileTypeFromString := sampleClassify
    ProfileTypeString := fun t => t
    GetProfefePortByPod := fun _ => 6060
    GatherAllByPod := fun _ _ _ _ => profiles
    SavePprof := fun n _ _ => if n = 0 then Except.ok "id-0" else Except.error "store down"
    ProfefeHostPort := "http://localhost:10100" }

/-- A pod that carries the service annotation. -/
def hintedPod : Pod :=
  { Name := "checkout-7f9"
    Namespace := "shop"
    Annotations := [("profefe.com/service", "checkout")]
    PodIP := "10.0.0.7"
    HostIP := "192.168.1.2" }

/-- A pod without annotations. -/
def plainPod : Pod :=
  { Name := "checkout-7f9"
    Namespace := "shop"
    Annotations := []
    PodIP := "10.0.0.7"
    HostIP := "192.168.1.2" }

/-- A pod whose service annotation is present and empty. -/
def emptyHintPod : Pod :=
  { Name := "checkout-7f9"
    Namespace := "shop"
    Annotations := [("profefe.com/service", "")]
    PodIP := "10.0.0.7"
    HostIP := "192.168.1.2" }

/-- A fetch result with two known kinds and one unknown kind between them. -/
def sampleProfiles : List (String × Nat) := [("heap", 1), ("trace", 2), ("profile", 3)]

/-- A sample cluster: two pods can be looked up by name, the selector
"app=shop" matches both, any other selector matches nothing. -/
def sampleKube : Kube :=
  { GetPodByName := fun _ _ podName =>
      if podName = "checkout-7f9" then Except.ok plainPod
      else if podName = "checkout-hinted" then Except.ok hintedPod
      else Except.error "pods not found"
    GetSelectedPods := fun _ labelSelector =>
      if labelSelector = "app=shop" then Except.ok [plainPod, hintedPod] else Except.ok [] }

/-- A schedule for two targets: workers 3 and 7 take one each, the channel is
closed while worker 3 is still inside `do`, every worker sees the close and
calls `wg.Done()`, `wg.Wait()` returns, and only then the workers return. -/
def sampleSchedule : List Action :=
  [Action.handoff 3, Action.handoff 7, Action.doReturn 7, Action.close,
    Action.observeClosed 7, Action.observeClosed 0, Action.wgDone 7, Action.doReturn 3,
    Action.observeClosed 1, Action.observeClosed 2, Action.observeClosed 3,
    Action.observeClosed 4, Action.observeClosed 5, Action.observeClosed 6,
    Action.observeClosed 8, Action.observeClosed 9,
    Action.wgDone 0, Action.wgDone 1, Action.wgDone 2, Action.wgDone 3, Action.wgDone 4,
    Action.wgDone 5, Action.wgDone 6, Action.wgDone 8, Action.wgDone 9,
    Action.waitReturns]

/-- The pool after `sampleSchedule` on the two sample pods: the last line is
logged and no worker has returned. -/
def sampleJoined : Pool String Nat :=
  (Pool.run (fun _ => sampleDeps (Except.ok sampleProfiles)) [] (Pool.init [plainPod, hintedPod])
    sampleSchedule).getD (Pool.init [])

/-- The returns of the ten workers, which `sampleSchedule` leaves out. -/
def sampleReturns : List Action :=
  (List.range 10).map Action.workerReturn

/-- The pool after `sampleSchedule` and the return of every worker. -/
def sampleFinal : Pool String Nat :=
  (Pool.run (fun _ => sampleDeps (Except.ok sampleProfiles)) [] (Pool.init [plainPod, hintedPod])
    (sampleSchedule ++ sampleReturns)).getD (Pool.init [])

section DoLemmas

variable {PT Payload : Type} [DecidableEq PT]

theorem savedRequests_doLoop (D : Deps PT Payload) (logger : List (String × String))
    (target : Pod) (profiles : List (String × Payload)) (n : Nat) :
    savedRequests (doLoop D logger target n profiles) =
      (submittable D profiles).map
        (fun kp => buildRequest target (D.NewProfileTypeFromString kp.1) kp.2) := by
  induction profiles generalizing n with
  | nil => simp [doLoop, savedRequests, submittable]
  | cons kp rest ih =>
    obtain ⟨kind, payload⟩ := kp
    by_cases hk : D.NewProfileTypeFromString kind = D.UnknownProfile
    · have := ih n
      simp only [submittable] at this ⊢
      simp [doLoop, savedRequests, hk, this]
    · have := ih (n + 1)
      simp only [submittable] at this ⊢
      cases hs : D.SavePprof n Context.Background
          (buildRequest target (D.NewProfileTypeFromString kind) payload) <;>
        simp [doLoop, savedRequests, hk, this, hs]

theorem savedContexts_doLoop (D : Deps PT Payload) (logger : List (String × String))
    (target : Pod) (profiles : List (String × Payload)) (n : Nat) :
    ∀ c ∈ savedContexts (doLoop D logger target n profiles), c = Context.Background := by
  induction profiles generalizing n with
  | nil => simp [doLoop, savedContexts]
  | cons kp rest ih =>
    obtain ⟨kind, payload⟩ := kp
    by_cases hk : D.NewProfileTypeFromString kind = D.UnknownProfile
    · simpa [doLoop, savedContexts, hk] using ih n
    · cases hs : D.SavePprof n Context.Background
          (buildRequest target (D.NewProfileTypeFromString kind) payload) <;>
        simpa [doLoop, savedContexts, hk, hs] using ih (n + 1)

theorem savedRequests_do (D : Deps PT Payload) (ctx : Context) (l : List (String × String))
    (target : Pod) :
    savedRequests (do_ D ctx l target) =
      match D.GatherAllByPod ctx ("http://" ++ target.PodIP) target
          (D.GetProfefePortByPod target) with
      | Except.error _ => []
      | Except.ok profiles =>
        (submittable D profiles).map
          (fun kp => buildRequest target (D.NewProfileTypeFromString kp.1) kp.2) := by
  simp only [do_]
  cases h : D.GatherAllByPod ctx ("http://" ++ target.PodIP) target
      (D.GetProfefePortByPod target) with
  | error err => simp [savedRequests]
  | ok profiles => simp [savedRequests, savedRequests_doLoop]

/-- Every request of `do` was built by `buildRequest` from a type that is not
`UnknownProfile`. -/
theorem mem_savedRequests_do (D : Deps PT Payload) (ctx : Context)
    (l : List (String × String)) (target : Pod) (req : SavePprofRequest PT Payload)
    (hreq : req ∈ savedRequests (do_ D ctx l target)) :
    ∃ (t : PT) (payload : Payload), t ≠ D.UnknownProfile ∧
      req = buildRequest target t payload := by
  rw [savedRequests_do] at hreq
  cases h : D.GatherAllByPod ctx ("http://" ++ target.PodIP) target
      (D.GetProfefePortByPod target) with
  | error err => simp [h] at hreq
  | ok profiles =>
    simp only [h, submittable, List.mem_map, List.mem_filter, decide_eq_true_eq] at hreq
    obtain ⟨kp, ⟨_, hk⟩, rfl⟩ := hreq
    exact ⟨_, _, hk, rfl⟩

end DoLemmas

section RequestLemmas

variable {PT Payload : Type}

theorem buildRequest_typ (target : Pod) (t : PT) (payload : Payload) :
    (buildRequest target t payload).Typ = t := by
  unfold buildRequest
  split
  · split <;> rfl
  · rfl

theorem buildRequest_hint (target : Pod) (t : PT) (payload : Payload) (h : String)
    (hget : mapGet target.Annotations "profefe.com/service" = some h) (hne : h ≠ "") :
    (buildRequest target t payload).Service = h ∧
      (buildRequest target t payload).Labels =
        [("namespace", target.Namespace), ("from", "kube-profefe"), ("pod", target.Name)] := by
  simp [buildRequest, hget, hne, mapSet]

theorem buildRequest_no_hint (target : Pod) (t : PT) (payload : Payload)
    (hget : ∀ h, mapGet target.Annotations "profefe.com/service" = some h → h = "") :
    (buildRequest target t payload).Service = target.Name ∧
      (buildRequest target t payload).Labels =
        [("namespace", target.Namespace), ("from", "kube-profefe")] := by
  unfold buildRequest
  cases hg : mapGet target.Annotations "profefe.com/service" with
  | none => simp
  | some h => simp [hget h hg]

end RequestLemmas

/-! ## The per-target routine `do` -/

section DoTheorems

variable {PT Payload : Type} [DecidableEq PT]

/-- C1: every request that `do` passes to `SavePprof` follows the override
rule. When the target carries a non-empty "profefe.com/service" annotation `h`,
the request has `Service = h` and `Labels["pod"] = target.Name`; when the
target carries no such annotation, that is when the key is absent or its value
is empty, the request has `Service = target.Name` and `Labels` has no "pod"
key. -/
theorem do_service_override (D : Deps PT Payload) (ctx : Context)
    (l : List (String × String)) (target : Pod) (req : SavePprofRequest PT Payload)
    (hreq : req ∈ savedRequests (do_ D ctx l target)) :
    (∀ h, mapGet target.Annotations "profefe.com/service" = some h → h ≠ "" →
        req.Service = h ∧ mapGet req.Labels "pod" = some target.Name) ∧
    ((∀ h, mapGet target.Annotations "profefe.com/service" = some h → h = "") →
        req.Service = target.Name ∧ mapGet req.Labels "pod" = none) := by
  obtain ⟨t, payload, -, rfl⟩ := mem_savedRequests_do D ctx l target req hreq
  constructor
  · intro h hget hne
    obtain ⟨hs, hl⟩ := buildRequest_hint target t payload h hget hne
    rw [hs, hl]
    exact ⟨rfl, by simp [mapGet]⟩
  · intro hno
    obtain ⟨hs, hl⟩ := buildRequest_no_hint target t payload hno
    rw [hs, hl]
    exact ⟨rfl, by simp [mapGet]⟩

/-- The override rule of C1 on three pods named "checkout-7f9": annotated with
the service "checkout", the heap profile is submitted with service "checkout"
and label pod = "checkout-7f9"; without annotations, and with an annotation
whose value is empty, it is submitted with service "checkout-7f9" and no "pod"
label. -/
theorem do_service_override_witness :
    (buildRequest hintedPod "heap" 1 ∈
        savedRequests (do_ (sampleDeps (Except.ok sampleProfiles)) workerCtx [] hintedPod) ∧
      (buildRequest hintedPod "heap" 1 : SavePprofRequest String Nat).Service = "checkout" ∧
      mapGet (buildRequest hintedPod "heap" 1 : SavePprofRequest String Nat).Labels "pod" =
        some "checkout-7f9") ∧
    (buildRequest plainPod "heap" 1 ∈
        savedRequests (do_ (sampleDeps (Except.ok sampleProfiles)) workerCtx [] plainPod) ∧
      (buildRequest plainPod "heap" 1 : SavePprofRequest String Nat).Service =
        "checkout-7f9" ∧
      mapGet (buildRequest plainPod "heap" 1 : SavePprofRequest String Nat).Labels "pod" =
        none) ∧
    (mapGet emptyHintPod.Annotations "profefe.com/service" = some "" ∧
      buildRequest emptyHintPod "heap" 1 ∈
        savedRequests
          (do_ (sampleDeps (Except.ok sampleProfiles)) workerCtx [] emptyHintPod) ∧
      (buildRequest emptyHintPod "heap" 1 : SavePprofRequest String Nat).Service =
        "checkout-7f9" ∧
      mapGet (buildRequest emptyHintPod "heap" 1 : SavePprofRequest String Nat).Labels "pod" =
        none) :=
  ⟨⟨by decide,
    (do_service_override (sampleDeps (Except.ok sampleProfiles)) workerCtx [] hintedPod
      (buildRequest hintedPod "heap" 1) (by decide)).1 "checkout" (by decide) (by decide)⟩,
   ⟨by decide,
    (do_service_override (sampleDeps (Except.ok sampleProfiles)) workerCtx [] plainPod
      (buildRequest plainPod "heap" 1) (by decide)).2
      (fun h hget => Option.noConfusion (show (none : Option String) = some h from hget))⟩,
   ⟨by decide, by decide,
    (do_service_override (sampleDeps (Except.ok sampleProfiles)) workerCtx [] emptyHintPod
      (buildRequest emptyHintPod "heap" 1) (by decide)).2
      (fun h hget => (Option.some.inj ((by decide :
        mapGet emptyHintPod.Annotations "profefe.com/service" = some "").symm.trans hget)).symm)⟩⟩

/-- C2: unknown kinds are never submitted. Every request that `do` passes to
`SavePprof` has a type other than `UnknownProfile`; and a fetched profile
whose kind classifies to `UnknownProfile` adds no `SavePprof` call: the
requests are those of the same fetch without that profile. -/
theorem do_never_submits_unknown (D : Deps PT Payload) (ctx : Context)
    (l : List (String × String)) (target : Pod) :
    (∀ req ∈ savedRequests (do_ D ctx l target), req.Typ ≠ D.UnknownProfile) ∧
    (∀ (front back : List (String × Payload)) (kind : String) (payload : Payload),
      D.GatherAllByPod ctx ("http://" ++ target.PodIP) target (D.GetProfefePortByPod target) =
          Except.ok (front ++ (kind, payload) :: back) →
      D.NewProfileTypeFromString kind = D.UnknownProfile →
      savedRequests (do_ D ctx l target) =
        savedRequests
          (do_ { D with GatherAllByPod := fun _ _ _ _ => Except.ok (front ++ back) }
            ctx l target)) := by
  constructor
  · intro req hreq
    obtain ⟨t, payload, ht, rfl⟩ := mem_savedRequests_do D ctx l target req hreq
    rw [buildRequest_typ]
    exact ht
  · intro front back kind payload hfetch hk
    rw [savedRequests_do, savedRequests_do, hfetch]
    simp [submittable, hk]

/-- The second half of C2 on a fetch of three profiles whose middle one has
the unknown kind "trace": only the two others are submitted. -/
theorem do_never_submits_unknown_witness :
    savedRequests (do_ (sampleDeps (Except.ok sampleProfiles)) workerCtx [] plainPod) =
      [buildRequest plainPod "heap" 1, buildRequest plainPod "cpu" 3] :=
  ((do_never_submits_unknown (sampleDeps (Except.ok sampleProfiles)) workerCtx [] plainPod).2
      [("heap", 1)] [("profile", 3)] "trace" 2 rfl (by decide)).trans (by decide)

/-- C3: when the fetch succeeds, `do` calls `SavePprof` exactly once for each
fetched profile whose kind is not unknown, in the order of the iteration,
whatever answers `sv` the store gives; the number of calls is the number of
such profiles. -/
theorem do_submits_each_once (D : Deps PT Payload) (ctx : Context)
    (l : List (String × String)) (target : Pod) (profiles : List (String × Payload))
    (sv : Nat → Context → SavePprofRequest PT Payload → Except String String)
    (hfetch : D.GatherAllByPod ctx ("http://" ++ target.PodIP) target
      (D.GetProfefePortByPod target) = Except.ok profiles) :
    savedRequests (do_ { D with SavePprof := sv } ctx l target) =
        (submittable D profiles).map
          (fun kp => buildRequest target (D.NewProfileTypeFromString kp.1) kp.2) ∧
      (savedRequests (do_ { D with SavePprof := sv } ctx l target)).length =
        profiles.countP
          (fun kp => decide (D.NewProfileTypeFromString kp.1 ≠ D.UnknownProfile)) := by
  have h : savedRequests (do_ { D with SavePprof := sv } ctx l target) =
      (submittable D profiles).map
        (fun kp => buildRequest target (D.NewProfileTypeFromString kp.1) kp.2) := by
    rw [savedRequests_do]
    simp only [hfetch]
    rfl
  refine ⟨h, ?_⟩
  rw [h, List.length_map, submittable, List.countP_eq_length_filter]

/-- C3 on a fetch of two known kinds and one unknown kind, with a store that
fails every call: two calls all the same. -/
theorem do_submits_each_once_witness :
    savedRequests
        (do_ { sampleDeps (Except.ok sampleProfiles) with
            SavePprof := fun _ _ _ => Except.error "store down" } workerCtx [] plainPod) =
        [buildRequest plainPod "heap" 1, buildRequest plainPod "cpu" 3] ∧
      (savedRequests
        (do_ { sampleDeps (Except.ok sampleProfiles) with
            SavePprof := fun _ _ _ => Except.error "store down" }
          workerCtx [] plainPod)).length = 2 :=
  (do_submits_each_once (sampleDeps (Except.ok sampleProfiles)) workerCtx [] plainPod
    sampleProfiles (fun _ _ _ => Except.error "store down") rfl)

/-- C4: when `GatherAllByPod` returns an error, `do` makes the fetch call, logs
the error and returns: its events are exactly these two, none of them a
`SavePprof` call; and the worker that ran it is back at its receive with every
other part of the pool untouched, ready for the next target. -/
theorem do_fetch_error (D : Deps PT Payload) (ctx : Context)
    (l : List (String × String)) (target : Pod) (err : String)
    (hfetch : D.GatherAllByPod ctx ("http://" ++ target.PodIP) target
      (D.GetProfefePortByPod target) = Except.error err) :
    do_ D ctx l target =
        [Event.gatherAllByPod ctx ("http://" ++ target.PodIP) target
            (D.GetProfefePortByPod target),
          Event.log Level.Error "impossible to gather profiles"
            (l ++ [("pod", target.Name)] ++ [("error", err)])] ∧
      savedRequests (do_ D ctx l target) = [] ∧
      ∀ (p : Pool PT Payload) (i k : Nat),
        p.workers[i]? = some (Worker.working k ctx target) →
        ∃ q, p.step (fun _ => D) l (Action.doReturn i) = some q ∧
          q.workers[i]? = some Worker.receiving ∧
          q.pending = p.pending ∧ q.closed = p.closed ∧ q.calls = p.calls := by
  have hdo : do_ D ctx l target =
      [Event.gatherAllByPod ctx ("http://" ++ target.PodIP) target
          (D.GetProfefePortByPod target),
        Event.log Level.Error "impossible to gather profiles"
          (l ++ [("pod", target.Name)] ++ [("error", err)])] := by
    simp only [do_, hfetch]
  refine ⟨hdo, ?_, ?_⟩
  · rw [hdo]
    rfl
  · intro p i k hw
    have hi : i < p.workers.length := by
      by_contra hcon
      rw [List.getElem?_eq_none (by omega)] at hw
      exact Option.noConfusion hw
    have hstep : p.step (fun _ => D) l (Action.doReturn i) =
        some { p with
          workers := p.workers.set i Worker.receiving
          returns := p.returns ++
            [{ call := k, worker := i, target := target,
               events := do_ D ctx l target }] } := by
      simp only [Pool.step, hw]
    refine ⟨_, hstep, ?_, rfl, rfl, rfl⟩
    simp [List.getElem?_set, hi]

/-- C4 on a pod whose fetch fails with "connection refused". -/
theorem do_fetch_error_witness :
    do_ (sampleDeps (Except.error "connection refused")) workerCtx [] plainPod =
        [Event.gatherAllByPod workerCtx "http://10.0.0.7" plainPod 6060,
          Event.log Level.Error "impossible to gather profiles"
            [("pod", "checkout-7f9"), ("error", "connection refused")]] ∧
      savedRequests
        (do_ (sampleDeps (Except.error "connection refused")) workerCtx [] plainPod) = [] :=
  have h := do_fetch_error (sampleDeps (Except.error "connection refused")) workerCtx []
    plainPod "connection refused" rfl
  ⟨h.1.trans rfl, h.2.1⟩

/-- C5 (what the code does): every context that `do` hands to `SavePprof` is
`context.Background()`, whatever context `do` itself received. -/
theorem do_submits_with_background (D : Deps PT Payload) (ctx : Context)
    (l : List (String × String)) (target : Pod) (c : Context)
    (hc : c ∈ savedContexts (do_ D ctx l target)) : c = Context.Background := by
  simp only [do_] at hc
  cases h : D.GatherAllByPod ctx ("http://" ++ target.PodIP) target
      (D.GetProfefePortByPod target) with
  | error err => simp [h, savedContexts] at hc
  | ok profiles =>
    simp only [h, savedContexts] at hc
    exact savedContexts_doLoop D _ target profiles 0 c hc

/-- C5 at a concrete target: `do` receives the 40 second context of the worker
and submits both profiles under `context.Background()`, which is not derived
from the context it received. -/
theorem do_submits_with_background_witness :
    savedContexts (do_ (sampleDeps (Except.ok sampleProfiles)) workerCtx [] plainPod) =
        [Context.Background, Context.Background] ∧
      Context.Background.derivedFrom workerCtx = false ∧
      Context.Background ∈
        savedContexts (do_ (sampleDeps (Except.ok sampleProfiles)) workerCtx [] plainPod) :=
  ⟨by decide, by decide,
   (do_submits_with_background (sampleDeps (Except.ok sampleProfiles)) workerCtx [] plainPod
      Context.Background (by decide)) ▸ (by decide)⟩

/-- C6: the labels of every request that `do` passes to `SavePprof` hold
"from" = "kube-profefe" and "namespace" = `target.Namespace`, hold no key other
than these two and "pod", and hold "pod" exactly when the target carries a
non-empty "profefe.com/service" annotation (the case in which the service name
is overridden). -/
theorem do_labels (D : Deps PT Payload) (ctx : Context)
    (l : List (String × String)) (target : Pod) (req : SavePprofRequest PT Payload)
    (hreq : req ∈ savedRequests (do_ D ctx l target)) :
    mapGet req.Labels "from" = some "kube-profefe" ∧
      mapGet req.Labels "namespace" = some target.Namespace ∧
      (∀ k, mapGet req.Labels k ≠ none → k = "from" ∨ k = "namespace" ∨ k = "pod") ∧
      (mapGet req.Labels "pod" ≠ none ↔
        ∃ h, mapGet target.Annotations "profefe.com/service" = some h ∧ h ≠ "") := by
  obtain ⟨t, payload, -, rfl⟩ := mem_savedRequests_do D ctx l target req hreq
  by_cases hov : ∃ h, mapGet target.Annotations "profefe.com/service" = some h ∧ h ≠ ""
  · obtain ⟨h, hget, hne⟩ := hov
    obtain ⟨-, hl⟩ := buildRequest_hint target t payload h hget hne
    rw [hl]
    refine ⟨by simp [mapGet], by simp [mapGet], ?_, ?_⟩
    · intro k hk
      by_contra hcon
      push_neg at hcon
      obtain ⟨h1, h2, h3⟩ := hcon
      exact hk (by simp [mapGet, Ne.symm h1, Ne.symm h2, Ne.symm h3])
    · simp [mapGet, hget, hne]
  · have hno : ∀ h, mapGet target.Annotations "profefe.com/service" = some h → h = "" := by
      intro h hget
      by_contra hne
      exact hov ⟨h, hget, hne⟩
    obtain ⟨-, hl⟩ := buildRequest_no_hint target t payload hno
    rw [hl]
    refine ⟨by simp [mapGet], by simp [mapGet], ?_, ?_⟩
    · intro k hk
      by_contra hcon
      push_neg at hcon
      obtain ⟨h1, h2, -⟩ := hcon
      exact hk (by simp [mapGet, Ne.symm h1, Ne.symm h2])
    · constructor
      · intro hp
        exact absurd (by simp [mapGet]) hp
      · intro hex
        exact absurd hex hov

/-- C6 on the annotated pod "checkout-7f9": "pod" is among the labels. -/
theorem do_labels_witness :
    mapGet (buildRequest hintedPod "cpu" 3 : SavePprofRequest String Nat).Labels "from" =
        some "kube-profefe" ∧
      mapGet (buildRequest hintedPod "cpu" 3 : SavePprofRequest String Nat).Labels "namespace" =
        some "shop" ∧
      mapGet (buildRequest hintedPod "cpu" 3 : SavePprofRequest String Nat).Labels "pod" ≠ none :=
  have h := do_labels (sampleDeps (Except.ok sampleProfiles)) workerCtx [] hintedPod
    (buildRequest hintedPod "cpu" 3) (by decide)
  ⟨h.1, h.2.1, h.2.2.2.2 ⟨"checkout", by decide, by decide⟩⟩

/-- C8: when the name of the target is not empty, every request that `do`
passes to `SavePprof` has a non-empty `Service`, whatever the annotations of
the target are. -/
theorem do_service_nonempty (D : Deps PT Payload) (ctx : Context)
    (l : List (String × String)) (target : Pod) (hname : target.Name ≠ "")
    (req : SavePprofRequest PT Payload)
    (hreq : req ∈ savedRequests (do_ D ctx l target)) : req.Service ≠ "" := by
  obtain ⟨t, payload, -, rfl⟩ := mem_savedRequests_do D ctx l target req hreq
  by_cases hov : ∃ h, mapGet target.Annotations "profefe.com/service" = some h ∧ h ≠ ""
  · obtain ⟨h, hget, hne⟩ := hov
    rw [(buildRequest_hint target t payload h hget hne).1]
    exact hne
  · have hno : ∀ h, mapGet target.Annotations "profefe.com/service" = some h → h = "" := by
      intro h hget
      by_contra hne
      exact hov ⟨h, hget, hne⟩
    rw [(buildRequest_no_hint target t payload hno).1]
    exact hname

/-- C8 on a pod whose "profefe.com/service" annotation is present and empty:
the request falls back to the pod name. -/
theorem do_service_nonempty_witness :
    mapGet emptyHintPod.Annotations "profefe.com/service" = some "" ∧
      buildRequest emptyHintPod "heap" 1 ∈
        savedRequests (do_ (sampleDeps (Except.ok sampleProfiles)) workerCtx [] emptyHintPod) ∧
      (buildRequest emptyHintPod "heap" 1 : SavePprofRequest String Nat).Service ≠ "" :=
  ⟨by decide, by decide,
   do_service_nonempty (sampleDeps (Except.ok sampleProfiles)) workerCtx [] emptyHintPod
     (by decide) (buildRequest emptyHintPod "heap" 1) (by decide)⟩

end DoTheorems

/-! ## Selection of the pods -/

section Selection

variable {PT Payload : Type}

theorem selectByName_eq (K : Kube) (logger : List (String × String)) (ns : String)
    (args : List String) (i : Nat) (selectedPods : List Pod)
    (trace : List (Event PT Payload)) :
    selectByName K logger ns i args selectedPods trace =
      (selectedPods ++ (args.enumFrom i).filterMap (lookupPod K ns),
        trace ++ (args.enumFrom i).flatMap (lookupTrace K logger ns)) := by
  induction args generalizing i selectedPods trace with
  | nil => simp [selectByName]
  | cons podName rest ih =>
    cases h : K.GetPodByName i ns podName with
    | error err =>
      simp [selectByName, h, ih, List.enumFrom_cons, lookupPod, lookupTrace]
    | ok pod =>
      simp [selectByName, h, ih, List.enumFrom_cons, lookupPod, lookupTrace]

theorem lookupTrace_quiet (K : Kube) (logger : List (String × String)) (ns : String)
    (arg : Nat × String) (e : Event PT Payload) (he : e ∈ lookupTrace K logger ns arg) :
    e.isSelectorQuery = false ∧ e.isFatal = false ∧ e.isFetchOrSubmit = false := by
  unfold lookupTrace at he
  cases h : K.GetPodByName arg.1 ns arg.2 with
  | error err =>
    simp only [h, List.mem_cons, List.mem_singleton, List.not_mem_nil, or_false] at he
    rcases he with rfl | rfl <;> exact ⟨rfl, rfl, rfl⟩
  | ok pod =>
    simp only [h, List.mem_singleton] at he
    subst he
    exact ⟨rfl, rfl, rfl⟩

/-- No event of a completed selection is a call of the profiling endpoint or
of the store. -/
theorem selectPods_no_fetch (K : Kube) (logger : List (String × String)) (ns : String)
    (args : List String) (labelSelector : String) (selectedPods : List Pod)
    (trace : List (Event PT Payload))
    (hsel : selectPods K logger ns args labelSelector = Except.ok (selectedPods, trace))
    (e : Event PT Payload) (he : e ∈ trace) : e.isFetchOrSubmit = false := by
  unfold selectPods at hsel
  split at hsel
  · rw [selectByName_eq] at hsel
    simp only [List.nil_append, Except.ok.injEq, Prod.mk.injEq] at hsel
    obtain ⟨-, rfl⟩ := hsel
    obtain ⟨arg, -, hmem⟩ := List.mem_flatMap.mp he
    exact (lookupTrace_quiet K logger ns arg e hmem).2.2
  · split at hsel
    · exact Except.noConfusion hsel
    · simp only [Except.ok.injEq, Prod.mk.injEq] at hsel
      obtain ⟨-, rfl⟩ := hsel
      simp only [List.mem_singleton] at he
      subst he
      rfl

/-- C7: when the selection ends with an empty list of pods, `Run` logs
"No pods to profile" with `logger.Fatal` and the process exits there: the pool
is never built, no step of a worker is possible, and no event of the run is a
fetch or a submission. -/
theorem no_pods_is_fatal (K : Kube) (logger : List (String × String)) (ns : String)
    (args : List String) (labelSelector : String) (trace : List (Event PT Payload))
    (hsel : selectPods K logger ns args labelSelector = Except.ok ([], trace)) :
    start K logger ns args labelSelector =
        Stage.exited (trace ++ [Event.log Level.Fatal "No pods to profile" logger]) ∧
      (∀ [DecidableEq PT] (D : Nat → Deps PT Payload) (a : Action),
        Stage.step D logger (start K logger ns args labelSelector : Stage PT Payload) a =
          none) ∧
      ∀ e ∈ trace ++ [Event.log Level.Fatal "No pods to profile" logger],
        e.isFetchOrSubmit = false := by
  have hstart : start K logger ns args labelSelector =
      Stage.exited (trace ++ [Event.log Level.Fatal "No pods to profile" logger]) := by
    simp [start, hsel]
  refine ⟨hstart, ?_, ?_⟩
  · intro _ D a
    rw [hstart]
    rfl
  · intro e he
    rcases List.mem_append.mp he with h | h
    · exact selectPods_no_fetch K logger ns args labelSelector [] trace hsel e h
    · simp only [List.mem_singleton] at h
      subst h
      rfl

/-- C7 on a run that names one pod, which the cluster does not have. -/
theorem no_pods_is_fatal_witness :
    (start sampleKube [] "shop" ["ghost"] "" : Stage String Nat) =
      Stage.exited
        [Event.getPodByName "shop" "ghost",
          Event.log Level.Warn "Pod not found" [("error", "pods not found")],
          Event.log Level.Fatal "No pods to profile" []] :=
  (no_pods_is_fatal sampleKube [] "shop" ["ghost"] ""
    [Event.getPodByName "shop" "ghost",
      Event.log Level.Warn "Pod not found" [("error", "pods not found")]] rfl).1

/-- C10: when at least one pod name is given, the selected pods are the pods
of the successful `GetPodByName` lookups, in argument order, one for each
successful argument; the selection does not end the run; each lookup is
recorded, each failure is followed by the warning "Pod not found", and no event
is the label-selector query or a fatal line. -/
theorem select_by_names (K : Kube) (logger : List (String × String)) (ns : String)
    (args : List String) (labelSelector : String) (hargs : args ≠ []) :
    (selectPods K logger ns args labelSelector :
        Except (List (Event PT Payload)) (List Pod × List (Event PT Payload))) =
      Except.ok (args.enum.filterMap (lookupPod K ns),
        args.enum.flatMap (lookupTrace K logger ns)) ∧
    ∀ e ∈ (args.enum.flatMap (lookupTrace K logger ns) : List (Event PT Payload)),
      e.isSelectorQuery = false ∧ e.isFatal = false := by
  constructor
  · have hlen : args.length > 0 := List.length_pos.mpr hargs
    simp [selectPods, hlen, selectByName_eq, List.enum]
  · intro e he
    obtain ⟨arg, -, hmem⟩ := List.mem_flatMap.mp he
    exact ⟨(lookupTrace_quiet K logger ns arg e hmem).1,
      (lookupTrace_quiet K logger ns arg e hmem).2.1⟩

/-- C10 on four names of which the second is unknown and the last repeats the
first: three pods are selected, in argument order, the repeated one twice. -/
theorem select_by_names_witness :
    (selectPods sampleKube [] "shop"
        ["checkout-7f9", "ghost", "checkout-hinted", "checkout-7f9"] "app=shop" :
        Except (List (Event String Nat)) (List Pod × List (Event String Nat))) =
      Except.ok ([plainPod, hintedPod, plainPod],
        [Event.getPodByName "shop" "checkout-7f9",
          Event.getPodByName "shop" "ghost",
          Event.log Level.Warn "Pod not found" [("error", "pods not found")],
          Event.getPodByName "shop" "checkout-hinted",
          Event.getPodByName "shop" "checkout-7f9"]) :=
  (select_by_names sampleKube [] "shop"
    ["checkout-7f9", "ghost", "checkout-hinted", "checkout-7f9"] "app=shop"
    (by decide)).1.trans rfl

end Selection

/-! ## The worker pool -/

section PoolLemmas

variable {PT Payload : Type}

theorem filterMap_cons_toList {α : Type} (f : Worker → Option α) (w : Worker)
    (ws : List Worker) :
    (w :: ws).filterMap f = (f w).toList ++ ws.filterMap f := by
  rw [List.filterMap_cons]
  cases f w <;> rfl

/-- Replacing the state `w` of worker `i` by `v` replaces what `w` contributes
to a `filterMap` over the workers by what `v` contributes. -/
theorem filterMap_set_coe {α : Type} (f : Worker → Option α) (ws : List Worker) (i : Nat)
    (w v : Worker) (h : ws[i]? = some w) :
    (((ws.set i v).filterMap f : List α) : Multiset α) + (((f w).toList : List α) : Multiset α) =
      ((ws.filterMap f : List α) : Multiset α) + (((f v).toList : List α) : Multiset α) := by
  induction ws generalizing i with
  | nil => simp at h
  | cons a ws ih =>
    cases i with
    | zero =>
      simp only [List.getElem?_cons_zero, Option.some.injEq] at h
      subst h
      rw [List.set_cons_zero, filterMap_cons_toList f v ws, filterMap_cons_toList f a ws]
      simp only [← Multiset.coe_add]
      abel
    | succ j =>
      simp only [List.getElem?_cons_succ] at h
      have := ih j h
      rw [List.set_cons_succ, filterMap_cons_toList f a (ws.set j v),
        filterMap_cons_toList f a ws]
      simp only [← Multiset.coe_add]
      rw [add_assoc, this, add_assoc]

/-- The same for a sum over the workers. -/
theorem sum_map_set (f : Worker → Nat) (ws : List Worker) (i : Nat) (w v : Worker)
    (h : ws[i]? = some w) :
    ((ws.set i v).map f).sum + f w = (ws.map f).sum + f v := by
  induction ws generalizing i with
  | nil => simp at h
  | cons a ws ih =>
    cases i with
    | zero =>
      simp only [List.getElem?_cons_zero, Option.some.injEq] at h
      subst h
      simp only [List.set_cons_zero, List.map_cons, List.sum_cons]
      omega
    | succ j =>
      simp only [List.getElem?_cons_succ] at h
      have := ih j h
      simp only [List.set_cons_succ, List.map_cons, List.sum_cons]
      omega

theorem getElem?_append_some {α : Type} {l : List α} (m : List α) {k : Nat} {c : α}
    (h : l[k]? = some c) : (l ++ m)[k]? = some c := by
  obtain ⟨hk, -⟩ := List.getElem?_eq_some.mp h
  rw [List.getElem?_append_left hk]
  exact h

theorem lt_of_getElem?_some {α : Type} {l : List α} {k : Nat} {c : α}
    (h : l[k]? = some c) : k < l.length :=
  (List.getElem?_eq_some.mp h).1

theorem getElem?_set_self_some {α : Type} {l : List α} {i : Nat} {w : α} (v : α)
    (h : l[i]? = some w) : (l.set i v)[i]? = some v := by
  simp [List.getElem?_set, lt_of_getElem?_some h]

/-- A worker that has returned stays so when another worker moves. -/
theorem exited_set (ws : List Worker) (i j : Nat) (w v : Worker) (hw : ws[i]? = some w)
    (hne : w ≠ Worker.exited) (hj : ws[j]? = some Worker.exited) :
    (ws.set i v)[j]? = some Worker.exited := by
  have hij : i ≠ j := by
    intro hij
    subst hij
    rw [hw] at hj
    exact hne (Option.some.inj hj)
  rw [List.getElem?_set_ne hij]
  exact hj

/-- The workers inside `do` after worker `i` moved to `v`. -/
theorem working_set (ws : List Worker) (i j : Nat) (v : Worker) (k : Nat) (ctx : Context)
    (pod : Pod) (hj : (ws.set i v)[j]? = some (Worker.working k ctx pod)) :
    (i = j ∧ v = Worker.working k ctx pod) ∨ ws[j]? = some (Worker.working k ctx pod) := by
  rw [List.getElem?_set] at hj
  split at hj
  · split at hj
    · rename_i hij _
      exact Or.inl ⟨hij, Option.some.inj hj⟩
    · exact Option.noConfusion hj
  · exact Or.inr hj

theorem mem_deferredCancels (i k : Nat) (calls : List DoCall)
    (hk : k ∈ deferredCancels i calls) : ∃ c, calls[k]? = some c ∧ c.worker = i := by
  simp only [deferredCancels, List.mem_reverse, List.mem_filter, decide_eq_true_eq] at hk
  obtain ⟨-, hk⟩ := hk
  cases hc : calls[k]? with
  | none => simp [hc] at hk
  | some c =>
    simp only [hc, Option.map_some', Option.some.injEq] at hk
    exact ⟨c, rfl, hk⟩

theorem active_eq_zero (ws : List Worker) (h : active ws = 0) :
    ∀ w ∈ ws, w = Worker.leaving ∨ w = Worker.exited := by
  induction ws with
  | nil => simp
  | cons a ws ih =>
    simp only [active, List.map_cons, List.sum_cons] at h
    have ha : a.notDone = 0 := by omega
    have hr : active ws = 0 := by simp only [active]; omega
    intro w hw
    rcases List.mem_cons.mp hw with rfl | hw
    · cases w <;> simp [Worker.notDone] at ha ⊢
    · exact ih hr w hw

theorem inflight_eq_nil (ws : List Worker)
    (h : ∀ w ∈ ws, w = Worker.leaving ∨ w = Worker.exited) :
    inflight ws = [] ∧ inflightCalls ws = [] := by
  induction ws with
  | nil => exact ⟨rfl, rfl⟩
  | cons a ws ih =>
    obtain ⟨h1, h2⟩ := ih (fun w hw => h w (List.mem_cons_of_mem _ hw))
    simp only [inflight, inflightCalls] at h1 h2 ⊢
    rcases h a (List.mem_cons_self _ _) with rfl | rfl <;>
      simp [List.filterMap_cons, Worker.targetOf, Worker.callOf, h1, h2]

theorem coe_cons_split {α : Type} (a : α) (l : List α) :
    ((a :: l : List α) : Multiset α) = (([a] : List α) : Multiset α) + ((l : List α) : Multiset α) := by
  rw [Multiset.coe_add]
  rfl

theorem poolInv_init [DecidableEq PT] (D : Nat → Deps PT Payload)
    (logger : List (String × String)) (pods : List Pod) :
    PoolInv D logger pods (Pool.init pods : Pool PT Payload) where
  conserve := by
    show ((([] : List Pod) : Multiset Pod)) + ((([] : List Pod) : Multiset Pod)) + _ = _
    simp [Pool.init]
  called := rfl
  callIdx := rfl
  workingOf := by
    intro i k ctx pod h
    have hm := List.mem_iff_getElem?.mpr ⟨i, h⟩
    simp [Pool.init] at hm
  returnsOf := by simp [Pool.init]
  counter := rfl
  closedEmpty := by simp [Pool.init]
  closedSeen := by
    intro w hw
    simp only [Pool.init, List.mem_replicate] at hw
    rw [hw.2]
    simp
  doneJoined := by simp [Pool.init]
  size := rfl
  deadline := by simp [Pool.init]
  logged := by simp [Pool.init]
  cancelledOf := by simp [Pool.init]

theorem poolInv_step [DecidableEq PT] (D : Nat → Deps PT Payload)
    (logger : List (String × String)) (pods : List Pod) (p q : Pool PT Payload) (a : Action)
    (hp : PoolInv D logger pods p) (hstep : p.step D logger a = some q) :
    PoolInv D logger pods q := by
  have hcons := hp.conserve
  have hcall := hp.called
  have hidx := hp.callIdx
  have hcnt := hp.counter
  cases a with
  | handoff i =>
    simp only [Pool.step] at hstep
    split at hstep
    · rename_i pod rest hpend hw
      split at hstep
      · exact Option.noConfusion hstep
      · rename_i hclosed
        simp only [Option.some.injEq] at hstep
        subst hstep
        have hin := filterMap_set_coe Worker.targetOf p.workers i Worker.receiving
          (Worker.working p.calls.length (Context.WithTimeout Context.Background 40) pod) hw
        have hic := filterMap_set_coe Worker.callOf p.workers i Worker.receiving
          (Worker.working p.calls.length (Context.WithTimeout Context.Background 40) pod) hw
        have hac := sum_map_set Worker.notDone p.workers i Worker.receiving
          (Worker.working p.calls.length (Context.WithTimeout Context.Background 40) pod) hw
        simp only [Worker.targetOf, Option.toList, Multiset.coe_nil, add_zero] at hin
        simp only [Worker.callOf, Option.toList, Multiset.coe_nil, add_zero] at hic
        simp only [Worker.notDone] at hac
        rw [hpend, coe_cons_split] at hcons
        exact
          { conserve := by
              simp only [inflight] at hcons ⊢
              rw [hin, ← hcons]
              abel
            called := by
              simp only [List.map_append, List.map_cons, List.map_nil, ← Multiset.coe_add,
                inflight] at hcall ⊢
              rw [hin, hcall]
              abel
            callIdx := by
              simp only [inflightCalls, List.length_append, List.length_singleton,
                List.range_succ, ← Multiset.coe_add] at hidx ⊢
              rw [hic, ← hidx]
              abel
            workingOf := by
              intro j k ctx pod1 hj
              rcases working_set _ _ _ _ _ _ _ hj with ⟨hij, hv⟩ | hold
              · simp only [Worker.working.injEq] at hv
                obtain ⟨hk, hc, hpd⟩ := hv
                subst hk hc hpd hij
                exact List.getElem?_concat_length _ _
              · exact getElem?_append_some _ (hp.workingOf j k ctx pod1 hold)
            returnsOf := by
              intro r hr
              obtain ⟨c, hc, h1, h2, h3⟩ := hp.returnsOf r hr
              exact ⟨c, getElem?_append_some _ hc, h1, h2, h3⟩
            counter := by
              simp only [active] at hcnt ⊢
              omega
            closedEmpty := fun hc => absurd hc hclosed
            closedSeen := by
              intro w hmem hw3
              rcases List.mem_or_eq_of_mem_set hmem with h | h
              · exact hp.closedSeen w h hw3
              · subst h
                rcases hw3 with h | h | h <;> exact Worker.noConfusion h
            doneJoined := fun hd => absurd (hp.doneJoined hd).1 hclosed
            size := by
              simp only [List.length_set]
              exact hp.size
            deadline := by
              intro c hc
              rcases List.mem_append.mp hc with h | h
              · exact hp.deadline c h
              · simp only [List.mem_singleton] at h
                subst h
                rfl
            logged := hp.logged
            cancelledOf := by
              intro k hk
              obtain ⟨c, hc, hex⟩ := hp.cancelledOf k hk
              exact ⟨c, getElem?_append_some _ hc,
                exited_set _ _ _ _ _ hw (fun h => Worker.noConfusion h) hex⟩ }
    · exact Option.noConfusion hstep
  | doReturn i =>
    simp only [Pool.step] at hstep
    split at hstep
    · rename_i k ctx pod hw
      simp only [Option.some.injEq] at hstep
      subst hstep
      have hin := filterMap_set_coe Worker.targetOf p.workers i (Worker.working k ctx pod)
        Worker.receiving hw
      have hic := filterMap_set_coe Worker.callOf p.workers i (Worker.working k ctx pod)
        Worker.receiving hw
      have hac := sum_map_set Worker.notDone p.workers i (Worker.working k ctx pod)
        Worker.receiving hw
      simp only [Worker.targetOf, Option.toList, Multiset.coe_nil, add_zero] at hin
      simp only [Worker.callOf, Option.toList, Multiset.coe_nil, add_zero] at hic
      simp only [Worker.notDone] at hac
      exact
        { conserve := by
            simp only [List.map_append, List.map_cons, List.map_nil, ← Multiset.coe_add,
              inflight] at hcons hin ⊢
            rw [← hcons, ← hin]
            abel
          called := by
            simp only [List.map_append, List.map_cons, List.map_nil, ← Multiset.coe_add,
              inflight] at hcall hin ⊢
            rw [hcall, ← hin]
            abel
          callIdx := by
            simp only [List.map_append, List.map_cons, List.map_nil, ← Multiset.coe_add,
              inflightCalls] at hidx hic ⊢
            rw [← hidx, ← hic]
            abel
          workingOf := by
            intro j k1 ctx1 pod1 hj
            rcases working_set _ _ _ _ _ _ _ hj with ⟨-, hv⟩ | hold
            · exact Worker.noConfusion hv
            · exact hp.workingOf j k1 ctx1 pod1 hold
          returnsOf := by
            intro r hr
            rcases List.mem_append.mp hr with h | h
            · exact hp.returnsOf r h
            · simp only [List.mem_singleton] at h
              subst h
              exact ⟨_, hp.workingOf i k ctx pod hw, rfl, rfl, rfl⟩
          counter := by
            simp only [active] at hcnt ⊢
            omega
          closedEmpty := hp.closedEmpty
          closedSeen := by
            intro w hmem hw3
            rcases List.mem_or_eq_of_mem_set hmem with h | h
            · exact hp.closedSeen w h hw3
            · subst h
              rcases hw3 with h | h | h <;> exact Worker.noConfusion h
          doneJoined := hp.doneJoined
          size := by
            simp only [List.length_set]
            exact hp.size
          deadline := hp.deadline
          logged := hp.logged
          cancelledOf := by
            intro k1 hk
            obtain ⟨c, hc, hex⟩ := hp.cancelledOf k1 hk
            exact ⟨c, hc, exited_set _ _ _ _ _ hw (fun h => Worker.noConfusion h) hex⟩ }
    · exact Option.noConfusion hstep
  | close =>
    simp only [Pool.step] at hstep
    split at hstep
    · rename_i hpend
      split at hstep
      · exact Option.noConfusion hstep
      · rename_i hclosed
        simp only [Option.some.injEq] at hstep
        subst hstep
        exact
          { conserve := hcons
            called := hcall
            callIdx := hidx
            workingOf := hp.workingOf
            returnsOf := hp.returnsOf
            counter := hcnt
            closedEmpty := fun _ => hpend
            closedSeen := fun _ _ _ => rfl
            doneJoined := fun hd => ⟨rfl, (hp.doneJoined hd).2⟩
            size := hp.size
            deadline := hp.deadline
            logged := hp.logged
            cancelledOf := hp.cancelledOf }
    · exact Option.noConfusion hstep
  | observeClosed i =>
    simp only [Pool.step] at hstep
    split at hstep
    · rename_i hw
      split at hstep
      · rename_i hclosed
        simp only [Option.some.injEq] at hstep
        subst hstep
        have hin := filterMap_set_coe Worker.targetOf p.workers i Worker.receiving
          Worker.closing hw
        have hic := filterMap_set_coe Worker.callOf p.workers i Worker.receiving
          Worker.closing hw
        have hac := sum_map_set Worker.notDone p.workers i Worker.receiving
          Worker.closing hw
        simp only [Worker.targetOf, Option.toList, Multiset.coe_nil, add_zero] at hin
        simp only [Worker.callOf, Option.toList, Multiset.coe_nil, add_zero] at hic
        simp only [Worker.notDone] at hac
        exact
          { conserve := by
              simp only [inflight] at hcons ⊢
              rw [hin]
              exact hcons
            called := by
              simp only [inflight] at hcall ⊢
              rw [hin]
              exact hcall
            callIdx := by
              simp only [inflightCalls] at hidx ⊢
              rw [hic]
              exact hidx
            workingOf := by
              intro j k1 ctx1 pod1 hj
              rcases working_set _ _ _ _ _ _ _ hj with ⟨-, hv⟩ | hold
              · exact Worker.noConfusion hv
              · exact hp.workingOf j k1 ctx1 pod1 hold
            returnsOf := hp.returnsOf
            counter := by
              simp only [active] at hcnt ⊢
              omega
            closedEmpty := hp.closedEmpty
            closedSeen := fun _ _ _ => hclosed
            doneJoined := hp.doneJoined
            size := by
              simp only [List.length_set]
              exact hp.size
            deadline := hp.deadline
            logged := by
              intro fields hmem
              rcases List.mem_append.mp hmem with h | h
              · exact hp.logged fields h
              · simp only [List.mem_singleton, Event.log.injEq] at h
                exact absurd h.2.1 (by decide)
            cancelledOf := by
              intro k1 hk
              obtain ⟨c, hc, hex⟩ := hp.cancelledOf k1 hk
              exact ⟨c, hc, exited_set _ _ _ _ _ hw (fun h => Worker.noConfusion h) hex⟩ }
      · exact Option.noConfusion hstep
    · exact Option.noConfusion hstep
  | wgDone i =>
    simp only [Pool.step] at hstep
    split at hstep
    · rename_i hw
      simp only [Option.some.injEq] at hstep
      subst hstep
      have hin := filterMap_set_coe Worker.targetOf p.workers i Worker.closing
        Worker.leaving hw
      have hic := filterMap_set_coe Worker.callOf p.workers i Worker.closing
        Worker.leaving hw
      have hac := sum_map_set Worker.notDone p.workers i Worker.closing Worker.leaving hw
      simp only [Worker.targetOf, Option.toList, Multiset.coe_nil, add_zero] at hin
      simp only [Worker.callOf, Option.toList, Multiset.coe_nil, add_zero] at hic
      simp only [Worker.notDone] at hac
      have hclosed : p.closed = true :=
        hp.closedSeen Worker.closing (List.mem_iff_getElem?.mpr ⟨i, hw⟩) (Or.inl rfl)
      exact
        { conserve := by
            simp only [inflight] at hcons ⊢
            rw [hin]
            exact hcons
          called := by
            simp only [inflight] at hcall ⊢
            rw [hin]
            exact hcall
          callIdx := by
            simp only [inflightCalls] at hidx ⊢
            rw [hic]
            exact hidx
          workingOf := by
            intro j k1 ctx1 pod1 hj
            rcases working_set _ _ _ _ _ _ _ hj with ⟨-, hv⟩ | hold
            · exact Worker.noConfusion hv
            · exact hp.workingOf j k1 ctx1 pod1 hold
          returnsOf := hp.returnsOf
          counter := by
            simp only [active] at hcnt ⊢
            omega
          closedEmpty := hp.closedEmpty
          closedSeen := fun _ _ _ => hclosed
          doneJoined := by
            intro hd
            have := hp.doneJoined hd
            exact ⟨this.1, by simp only []; omega⟩
          size := by
            simp only [List.length_set]
            exact hp.size
          deadline := hp.deadline
          logged := hp.logged
          cancelledOf := by
            intro k1 hk
            obtain ⟨c, hc, hex⟩ := hp.cancelledOf k1 hk
            exact ⟨c, hc, exited_set _ _ _ _ _ hw (fun h => Worker.noConfusion h) hex⟩ }
    · exact Option.noConfusion hstep
  | workerReturn i =>
    simp only [Pool.step] at hstep
    split at hstep
    · rename_i hw
      simp only [Option.some.injEq] at hstep
      subst hstep
      have hin := filterMap_set_coe Worker.targetOf p.workers i Worker.leaving
        Worker.exited hw
      have hic := filterMap_set_coe Worker.callOf p.workers i Worker.leaving
        Worker.exited hw
      have hac := sum_map_set Worker.notDone p.workers i Worker.leaving Worker.exited hw
      simp only [Worker.targetOf, Option.toList, Multiset.coe_nil, add_zero] at hin
      simp only [Worker.callOf, Option.toList, Multiset.coe_nil, add_zero] at hic
      simp only [Worker.notDone] at hac
      have hclosed : p.closed = true :=
        hp.closedSeen Worker.leaving (List.mem_iff_getElem?.mpr ⟨i, hw⟩) (Or.inr (Or.inl rfl))
      exact
        { conserve := by
            simp only [inflight] at hcons ⊢
            rw [hin]
            exact hcons
          called := by
            simp only [inflight] at hcall ⊢
            rw [hin]
            exact hcall
          callIdx := by
            simp only [inflightCalls] at hidx ⊢
            rw [hic]
            exact hidx
          workingOf := by
            intro j k1 ctx1 pod1 hj
            rcases working_set _ _ _ _ _ _ _ hj with ⟨-, hv⟩ | hold
            · exact Worker.noConfusion hv
            · exact hp.workingOf j k1 ctx1 pod1 hold
          returnsOf := hp.returnsOf
          counter := by
            simp only [active] at hcnt ⊢
            omega
          closedEmpty := hp.closedEmpty
          closedSeen := fun _ _ _ => hclosed
          doneJoined := hp.doneJoined
          size := by
            simp only [List.length_set]
            exact hp.size
          deadline := hp.deadline
          logged := hp.logged
          cancelledOf := by
            intro k1 hk
            rcases List.mem_append.mp hk with h | h
            · obtain ⟨c, hc, hex⟩ := hp.cancelledOf k1 h
              exact ⟨c, hc, exited_set _ _ _ _ _ hw (fun h => Worker.noConfusion h) hex⟩
            · obtain ⟨c, hc, hci⟩ := mem_deferredCancels i k1 p.calls h
              refine ⟨c, hc, ?_⟩
              rw [hci]
              exact getElem?_set_self_some _ hw }
    · exact Option.noConfusion hstep
  | waitReturns =>
    simp only [Pool.step] at hstep
    split at hstep
    · rename_i hcond
      simp only [Option.some.injEq] at hstep
      subst hstep
      simp only [Bool.and_eq_true, beq_iff_eq, Bool.not_eq_true'] at hcond
      exact
        { conserve := hcons
          called := hcall
          callIdx := hidx
          workingOf := hp.workingOf
          returnsOf := hp.returnsOf
          counter := hcnt
          closedEmpty := hp.closedEmpty
          closedSeen := hp.closedSeen
          doneJoined := fun _ => ⟨hcond.1.1, hcond.1.2⟩
          size := hp.size
          deadline := hp.deadline
          logged := fun _ _ => rfl
          cancelledOf := hp.cancelledOf }
    · exact Option.noConfusion hstep

theorem poolInv_run [DecidableEq PT] (D : Nat → Deps PT Payload)
    (logger : List (String × String)) (pods : List Pod) (sched : List Action)
    (p q : Pool PT Payload) (hp : PoolInv D logger pods p)
    (hrun : Pool.run D logger p sched = some q) : PoolInv D logger pods q := by
  induction sched generalizing p with
  | nil =>
    simp only [Pool.run, Option.some.injEq] at hrun
    subst hrun
    exact hp
  | cons a rest ih =>
    simp only [Pool.run] at hrun
    split at hrun
    · rename_i r hstep
      exact ih r (poolInv_step D logger pods p r a hp hstep) hrun
    · exact Option.noConfusion hrun

theorem stepsLeft_step [DecidableEq PT] (D : Nat → Deps PT Payload)
    (logger : List (String × String)) (p q : Pool PT Payload) (a : Action)
    (hstep : p.step D logger a = some q) : q.stepsLeft + 1 = p.stepsLeft := by
  cases a with
  | handoff i =>
    simp only [Pool.step] at hstep
    split at hstep
    · rename_i pod rest hpend hw
      split at hstep
      · exact Option.noConfusion hstep
      · simp only [Option.some.injEq] at hstep
        subst hstep
        have hs := sum_map_set Worker.stepsLeft p.workers i Worker.receiving
          (Worker.working p.calls.length (Context.WithTimeout Context.Background 40) pod) hw
        simp only [Worker.stepsLeft] at hs
        simp only [Pool.stepsLeft, hpend, List.length_cons]
        omega
    · exact Option.noConfusion hstep
  | doReturn i =>
    simp only [Pool.step] at hstep
    split at hstep
    · rename_i k ctx pod hw
      simp only [Option.some.injEq] at hstep
      subst hstep
      have hs := sum_map_set Worker.stepsLeft p.workers i (Worker.working k ctx pod)
        Worker.receiving hw
      simp only [Worker.stepsLeft] at hs
      simp only [Pool.stepsLeft]
      omega
    · exact Option.noConfusion hstep
  | close =>
    simp only [Pool.step] at hstep
    split at hstep
    · split at hstep
      · exact Option.noConfusion hstep
      · rename_i hclosed
        simp only [Option.some.injEq] at hstep
        subst hstep
        have hc : p.closed = false := Bool.eq_false_iff.mpr hclosed
        simp only [Pool.stepsLeft, hc, Bool.false_eq_true, ↓reduceIte]
        omega
    · exact Option.noConfusion hstep
  | observeClosed i =>
    simp only [Pool.step] at hstep
    split at hstep
    · rename_i hw
      split at hstep
      · simp only [Option.some.injEq] at hstep
        subst hstep
        have hs := sum_map_set Worker.stepsLeft p.workers i Worker.receiving
          Worker.closing hw
        simp only [Worker.stepsLeft] at hs
        simp only [Pool.stepsLeft]
        omega
      · exact Option.noConfusion hstep
    · exact Option.noConfusion hstep
  | wgDone i =>
    simp only [Pool.step] at hstep
    split at hstep
    · rename_i hw
      simp only [Option.some.injEq] at hstep
      subst hstep
      have hs := sum_map_set Worker.stepsLeft p.workers i Worker.closing Worker.leaving hw
      simp only [Worker.stepsLeft] at hs
      simp only [Pool.stepsLeft]
      omega
    · exact Option.noConfusion hstep
  | workerReturn i =>
    simp only [Pool.step] at hstep
    split at hstep
    · rename_i hw
      simp only [Option.some.injEq] at hstep
      subst hstep
      have hs := sum_map_set Worker.stepsLeft p.workers i Worker.leaving Worker.exited hw
      simp only [Worker.stepsLeft] at hs
      simp only [Pool.stepsLeft]
      omega
    · exact Option.noConfusion hstep
  | waitReturns =>
    simp only [Pool.step] at hstep
    split at hstep
    · rename_i hcond
      simp only [Option.some.injEq] at hstep
      subst hstep
      simp only [Bool.and_eq_true, beq_iff_eq, Bool.not_eq_true'] at hcond
      simp only [Pool.stepsLeft, hcond.2, Bool.false_eq_true, ↓reduceIte]
    · exact Option.noConfusion hstep

theorem stepsLeft_run [DecidableEq PT] (D : Nat → Deps PT Payload)
    (logger : List (String × String)) (sched : List Action) (p q : Pool PT Payload)
    (hrun : Pool.run D logger p sched = some q) : sched.length + q.stepsLeft = p.stepsLeft := by
  induction sched generalizing p with
  | nil =>
    simp only [Pool.run, Option.some.injEq] at hrun
    subst hrun
    simp
  | cons a rest ih =>
    simp only [Pool.run] at hrun
    split at hrun
    · rename_i r hstep
      have h1 := ih r hrun
      have h2 := stepsLeft_step D logger p r a hstep
      simp only [List.length_cons]
      omega
    · exact Option.noConfusion hrun

/-- Some worker is at its receive, inside `do`, about to call `wg.Done()` or
about to return, or every worker has returned. -/
theorem workers_cases (ws : List Worker) :
    Worker.receiving ∈ ws ∨ (∃ k ctx pod, Worker.working k ctx pod ∈ ws) ∨
      Worker.closing ∈ ws ∨ Worker.leaving ∈ ws ∨ ∀ w ∈ ws, w = Worker.exited := by
  induction ws with
  | nil => exact Or.inr (Or.inr (Or.inr (Or.inr (by simp))))
  | cons w ws ih =>
    cases w with
    | receiving => exact Or.inl (List.mem_cons_self _ _)
    | working k ctx pod => exact Or.inr (Or.inl ⟨k, ctx, pod, List.mem_cons_self _ _⟩)
    | closing => exact Or.inr (Or.inr (Or.inl (List.mem_cons_self _ _)))
    | leaving => exact Or.inr (Or.inr (Or.inr (Or.inl (List.mem_cons_self _ _))))
    | exited =>
      rcases ih with h | ⟨k, ctx, pod, h⟩ | h | h | h
      · exact Or.inl (List.mem_cons_of_mem _ h)
      · exact Or.inr (Or.inl ⟨k, ctx, pod, List.mem_cons_of_mem _ h⟩)
      · exact Or.inr (Or.inr (Or.inl (List.mem_cons_of_mem _ h)))
      · exact Or.inr (Or.inr (Or.inr (Or.inl (List.mem_cons_of_mem _ h))))
      · refine Or.inr (Or.inr (Or.inr (Or.inr ?_)))
        intro w hw
        rcases List.mem_cons.mp hw with rfl | hw
        · rfl
        · exact h w hw

theorem all_exited (ws : List Worker) (h : ∀ w ∈ ws, w = Worker.exited) :
    active ws = 0 ∧ (ws.map Worker.stepsLeft).sum = 0 := by
  induction ws with
  | nil => exact ⟨rfl, rfl⟩
  | cons a ws ih =>
    obtain ⟨h1, h2⟩ := ih (fun w hw => h w (List.mem_cons_of_mem _ hw))
    have ha := h a (List.mem_cons_self _ _)
    subst ha
    simp only [active] at h1 ⊢
    simp [Worker.notDone, Worker.stepsLeft, h1, h2]

end PoolLemmas

section PoolTheorems

set_option maxHeartbeats 1000000

variable {PT Payload : Type} [DecidableEq PT]

/-- C9 (as amended): along every schedule of the pool started on
`selectedPods`, the targets on which `do` has been called together with the
targets not yet sent are the selected pods, so no target is handed to two
workers or dropped. Once the line "It is all done bye..." is in the log, `do`
has been called on each selected pod exactly once, each of these calls has
returned exactly once, every return carries the events of `do` run on the
target of its call under the 40 second context, and every one of the ten
workers has called `wg.Done()`: it is about to return or has returned. The
channel is closed, nothing is pending, and the only steps left are returns of
workers. -/
theorem pool_join_complete (D : Nat → Deps PT Payload) (logger : List (String × String))
    (selectedPods : List Pod) (sched : List Action) (p : Pool PT Payload)
    (hrun : Pool.run D logger (Pool.init selectedPods) sched = some p) :
    (p.calls.map DoCall.target ++ p.pending).Perm selectedPods ∧
      (Event.log Level.Info "It is all done bye..." logger ∈ p.log →
        (p.calls.map DoCall.target).Perm selectedPods ∧
        (p.returns.map DoReturn.call).Perm (List.range p.calls.length) ∧
        (∀ r ∈ p.returns, ∃ c, p.calls[r.call]? = some c ∧ c.worker = r.worker ∧
          c.target = r.target ∧ c.ctx = workerCtx ∧
          r.events = do_ (D r.call) workerCtx logger r.target) ∧
        (p.returns.map DoReturn.target).Perm selectedPods ∧
        p.workers.length = 10 ∧
        (∀ w ∈ p.workers, w = Worker.leaving ∨ w = Worker.exited) ∧
        p.pending = [] ∧ p.closed = true ∧ p.wg = 0 ∧
        ∀ a q, p.step D logger a = some q → ∃ i, a = Action.workerReturn i) := by
  have hinv := poolInv_run D logger selectedPods sched _ p
    (poolInv_init D logger selectedPods) hrun
  constructor
  · rw [← Multiset.coe_eq_coe, ← Multiset.coe_add, hinv.called]
    exact hinv.conserve
  · intro hlog
    have hdone := hinv.logged logger hlog
    obtain ⟨hclosed, hwg⟩ := hinv.doneJoined hdone
    have hpend := hinv.closedEmpty hclosed
    have hact : active p.workers = 0 := by rw [← hinv.counter]; exact hwg
    have hws := active_eq_zero p.workers hact
    obtain ⟨hfl, hfc⟩ := inflight_eq_nil p.workers hws
    have hcons := hinv.conserve
    have hcall := hinv.called
    have hidx := hinv.callIdx
    rw [hfl, hpend] at hcons
    rw [hfl] at hcall
    rw [hfc] at hidx
    simp only [Multiset.coe_nil, add_zero] at hcons hcall hidx
    have hnot : ∀ (i : Nat) (w : Worker), p.workers[i]? = some w →
        w = Worker.leaving ∨ w = Worker.exited :=
      fun i w h => hws w (List.mem_iff_getElem?.mpr ⟨i, h⟩)
    refine ⟨?_, ?_, ?_, ?_, hinv.size, hws, hpend, hclosed, hwg, ?_⟩
    · rw [← Multiset.coe_eq_coe, hcall]
      exact hcons
    · rw [← Multiset.coe_eq_coe]
      exact hidx
    · intro r hr
      obtain ⟨c, hc, h1, h2, h3⟩ := hinv.returnsOf r hr
      have hctx := hinv.deadline c (List.mem_iff_getElem?.mpr ⟨_, hc⟩)
      rw [hctx, h2] at h3
      exact ⟨c, hc, h1, h2, hctx, h3⟩
    · rw [← Multiset.coe_eq_coe]
      exact hcons
    · intro a q hstep
      cases a with
      | handoff i => simp [Pool.step, hpend] at hstep
      | doReturn i =>
        simp only [Pool.step] at hstep
        split at hstep
        · rename_i hw
          rcases hnot i _ hw with h | h <;> exact Worker.noConfusion h
        · exact Option.noConfusion hstep
      | close => simp [Pool.step, hpend, hclosed] at hstep
      | observeClosed i =>
        simp only [Pool.step] at hstep
        split at hstep
        · rename_i hw
          rcases hnot i _ hw with h | h <;> exact Worker.noConfusion h
        · exact Option.noConfusion hstep
      | wgDone i =>
        simp only [Pool.step] at hstep
        split at hstep
        · rename_i hw
          rcases hnot i _ hw with h | h <;> exact Worker.noConfusion h
        · exact Option.noConfusion hstep
      | workerReturn i => exact ⟨i, rfl⟩
      | waitReturns => simp [Pool.step, hdone] at hstep

/-- The sample schedule, with the returns of the workers, can be run, and ends
in `sampleFinal`. -/
theorem sampleFinal_run :
    Pool.run (fun _ => sampleDeps (Except.ok sampleProfiles)) []
        (Pool.init [plainPod, hintedPod]) (sampleSchedule ++ sampleReturns) =
      some sampleFinal := rfl

/-- C9 (as amended) on two targets, a schedule in which the channel is closed
while one `do` call is still running, and the return of every worker after the
last line. -/
theorem pool_join_complete_witness :
    Pool.run (fun _ => sampleDeps (Except.ok sampleProfiles)) []
        (Pool.init [plainPod, hintedPod]) (sampleSchedule ++ sampleReturns) =
        some sampleFinal ∧
      Event.log Level.Info "It is all done bye..." [] ∈ sampleFinal.log ∧
      (sampleFinal.calls.map DoCall.target).Perm [plainPod, hintedPod] ∧
      (sampleFinal.returns.map DoReturn.call).Perm (List.range sampleFinal.calls.length) ∧
      (sampleFinal.returns.map DoReturn.target).Perm [plainPod, hintedPod] ∧
      sampleFinal.workers.length = 10 :=
  have hlog : Event.log Level.Info "It is all done bye..." [] ∈ sampleFinal.log := by decide
  have h := (pool_join_complete (fun _ => sampleDeps (Except.ok sampleProfiles)) []
    [plainPod, hintedPod] (sampleSchedule ++ sampleReturns) sampleFinal
    sampleFinal_run).2 hlog
  ⟨sampleFinal_run, hlog, h.1, h.2.1, h.2.2.2.1, h.2.2.2.2.1⟩

/-- C9 as stated fails: after `sampleSchedule` on two targets the line
"It is all done bye..." is in the log, every worker has called `wg.Done()`
(line 116), and none has returned: each still has its `return` (line 117) and
its deferred `cancel()` calls (line 120) ahead, and no context is cancelled. -/
theorem pool_logs_before_workers_exit :
    Pool.run (fun _ => sampleDeps (Except.ok sampleProfiles)) []
        (Pool.init [plainPod, hintedPod]) sampleSchedule = some sampleJoined ∧
      Event.log Level.Info "It is all done bye..." [] ∈ sampleJoined.log ∧
      sampleJoined.workers = List.replicate 10 Worker.leaving ∧
      Worker.exited ∉ sampleJoined.workers ∧
      sampleJoined.cancelled = [] :=
  ⟨rfl, by decide, by decide, by decide, by decide⟩

/-- The pool cannot get stuck: in every state that a schedule reaches from the
start of the pool and in which steps are left, as is the case while the last
line is not logged, some step is enabled (a handoff, the return of a `do`
call, the close, a worker seeing the close, a `wg.Done()`, the return of a
worker, or the return of `wg.Wait()`). -/
theorem pool_progress (D : Nat → Deps PT Payload) (logger : List (String × String))
    (selectedPods : List Pod) (sched : List Action) (p : Pool PT Payload)
    (hrun : Pool.run D logger (Pool.init selectedPods) sched = some p)
    (hleft : p.stepsLeft ≠ 0) : ∃ a, (p.step D logger a).isSome = true := by
  have hinv := poolInv_run D logger selectedPods sched _ p
    (poolInv_init D logger selectedPods) hrun
  rcases workers_cases p.workers with hr | ⟨k, ctx, pod, hw⟩ | hc | hl | hall
  · obtain ⟨i, hi⟩ := List.mem_iff_getElem?.mp hr
    by_cases hc : p.closed = true
    · exact ⟨Action.observeClosed i, by simp [Pool.step, hi, hc]⟩
    · cases hpend : p.pending with
      | nil => exact ⟨Action.close, by simp [Pool.step, hpend, hc]⟩
      | cons pod rest => exact ⟨Action.handoff i, by simp [Pool.step, hpend, hi, hc]⟩
  · obtain ⟨i, hi⟩ := List.mem_iff_getElem?.mp hw
    exact ⟨Action.doReturn i, by simp [Pool.step, hi]⟩
  · obtain ⟨i, hi⟩ := List.mem_iff_getElem?.mp hc
    exact ⟨Action.wgDone i, by simp [Pool.step, hi]⟩
  · obtain ⟨i, hi⟩ := List.mem_iff_getElem?.mp hl
    exact ⟨Action.workerReturn i, by simp [Pool.step, hi]⟩
  · obtain ⟨hact, hsum⟩ := all_exited p.workers hall
    have hwg : p.wg = 0 := by rw [hinv.counter]; exact hact
    have hmem : ∃ w, w ∈ p.workers := by
      cases hws : p.workers with
      | nil =>
        have := hinv.size
        rw [hws] at this
        exact absurd this (by decide)
      | cons w ws => exact ⟨w, List.mem_cons_self _ _⟩
    obtain ⟨w, hw⟩ := hmem
    have hclosed : p.closed = true :=
      hinv.closedSeen w hw (Or.inr (Or.inr (hall w hw)))
    have hpend := hinv.closedEmpty hclosed
    have hnd : p.done = false := by
      by_contra hd
      have hd1 : p.done = true := by simpa using hd
      apply hleft
      simp [Pool.stepsLeft, hpend, hsum, hclosed, hd1]
    exact ⟨Action.waitReturns, by simp [Pool.step, hclosed, hwg, hnd]⟩

/-- The progress of the pool in the state after the two handoffs of
`sampleSchedule`: a step is enabled. -/
theorem pool_progress_witness :
    ∃ a, (Pool.step (fun _ => sampleDeps (Except.ok sampleProfiles)) []
      ((Pool.run (fun _ => sampleDeps (Except.ok sampleProfiles)) []
        (Pool.init [plainPod, hintedPod]) [Action.handoff 3, Action.handoff 7]).getD
          (Pool.init [])) a).isSome = true :=
  pool_progress (fun _ => sampleDeps (Except.ok sampleProfiles)) [] [plainPod, hintedPod]
    [Action.handoff 3, Action.handoff 7] _ rfl (by decide)

/-- Every schedule of the pool is finite and of known length: after `sched` the
pool has exactly `stepsLeft` steps to go, out of `2 * n + 32` for `n` selected
pods (two for each target, the close, three for the exit of each of the ten
workers, the return of `wg.Wait()`). -/
theorem pool_schedule_length (D : Nat → Deps PT Payload) (logger : List (String × String))
    (selectedPods : List Pod) (sched : List Action) (p : Pool PT Payload)
    (hrun : Pool.run D logger (Pool.init selectedPods) sched = some p) :
    sched.length + p.stepsLeft = 2 * selectedPods.length + 32 := by
  have h := stepsLeft_run D logger sched _ p hrun
  rw [h]
  rfl

/-- The length of the full sample schedule: thirty-six steps for two targets,
none left. -/
theorem pool_schedule_length_witness :
    (sampleSchedule ++ sampleReturns).length + sampleFinal.stepsLeft = 2 * 2 + 32 ∧
      sampleFinal.stepsLeft = 0 :=
  ⟨pool_schedule_length (fun _ => sampleDeps (Except.ok sampleProfiles)) []
    [plainPod, hintedPod] (sampleSchedule ++ sampleReturns) sampleFinal sampleFinal_run,
   by decide⟩

/-- Every call of `do` that the pool makes receives the context
`context.WithTimeout(ctx, 40s)` built from `context.Background()` (line 119). -/
theorem pool_calls_with_deadline (D : Nat → Deps PT Payload)
    (logger : List (String × String)) (selectedPods : List Pod) (sched : List Action)
    (p : Pool PT Payload)
    (hrun : Pool.run D logger (Pool.init selectedPods) sched = some p)
    (c : DoCall) (hc : c ∈ p.calls) :
    c.ctx = Context.WithTimeout Context.Background 40 :=
  (poolInv_run D logger selectedPods sched _ p
    (poolInv_init D logger selectedPods) hrun).deadline c hc

/-- The first call of `sampleSchedule`, made by worker 3, carries the 40 second
context. -/
theorem pool_calls_with_deadline_witness :
    ({ worker := 3, ctx := workerCtx, target := plainPod } : DoCall) ∈ sampleFinal.calls ∧
      workerCtx = Context.WithTimeout Context.Background 40 :=
  ⟨by decide,
   pool_calls_with_deadline (fun _ => sampleDeps (Except.ok sampleProfiles)) []
    [plainPod, hintedPod] (sampleSchedule ++ sampleReturns) sampleFinal sampleFinal_run
    { worker := 3, ctx := workerCtx, target := plainPod } (by decide)⟩

/-- The deferred `cancel()` of a target's context runs only when the worker
that made the call returns, which is after the close of the channel: whenever
the context of call `k` has been cancelled by `cancel()`, the worker of that
call has returned and the channel is closed. -/
theorem pool_cancel_after_return (D : Nat → Deps PT Payload)
    (logger : List (String × String)) (selectedPods : List Pod) (sched : List Action)
    (p : Pool PT Payload)
    (hrun : Pool.run D logger (Pool.init selectedPods) sched = some p)
    (k : Nat) (hk : k ∈ p.cancelled) :
    ∃ c, p.calls[k]? = some c ∧ p.workers[c.worker]? = some Worker.exited ∧
      p.closed = true := by
  have hinv := poolInv_run D logger selectedPods sched _ p
    (poolInv_init D logger selectedPods) hrun
  obtain ⟨c, hc, hex⟩ := hinv.cancelledOf k hk
  exact ⟨c, hc, hex,
    hinv.closedSeen Worker.exited (List.mem_iff_getElem?.mpr ⟨_, hex⟩) (Or.inr (Or.inr rfl))⟩

/-- The context of the first call of the sample run is cancelled once worker 3
has returned. -/
theorem pool_cancel_after_return_witness :
    sampleFinal.cancelled = [0, 1] ∧
      ∃ c, sampleFinal.calls[0]? = some c ∧
        sampleFinal.workers[c.worker]? = some Worker.exited ∧ sampleFinal.closed = true :=
  ⟨by decide,
   pool_cancel_after_return (fun _ => sampleDeps (Except.ok sampleProfiles)) []
    [plainPod, hintedPod] (sampleSchedule ++ sampleReturns) sampleFinal sampleFinal_run 0
    (by decide)⟩

end PoolTheorems

end KProfefe
